import Mathlib

/-!
# Verification of the `curies` SPARQL Mapping Service specification

This file shallowly embeds the components described in the repository's
specification — the CURIE↔URI Converter, the SPARQL Query Pattern Matcher,
the result Serializer/Deserializer, the Mapping Endpoint's content
negotiation, the SPARQL client's availability probe, and the version module —
and proves the spec's testable properties about them.

The repository snapshot ships `src/curies/version.py` together with the
federation test-suite (`tests/cases.py`, `tests/test_sparql.py`); the bodies
of `curies.Converter` and `curies.mapping_service` themselves are not part of
the snapshot, so those components are modelled from the specification text,
as noted on each definition.
-/

namespace Curies

/-! ## List-of-characters primitives

All string manipulation is done on `List Char` (`String.data`), so that the
proofs can proceed by structural induction. -/

/-- `listStarts a b` is `true` when `a` is a prefix of the character list `b`. -/
def listStarts : List Char → List Char → Bool
  | [], _ => true
  | _ :: _, [] => false
  | a :: as, b :: bs => if a = b then listStarts as bs else false

theorem listStarts_append (a t : List Char) : listStarts a (a ++ t) = true := by
  induction a with
  | nil => rfl
  | cons c cs ih => simp [listStarts, ih]

theorem listStarts_iff (a b : List Char) :
    listStarts a b = true ↔ ∃ t, b = a ++ t := by
  induction a generalizing b with
  | nil => simp [listStarts]
  | cons c cs ih =>
    cases b with
    | nil => simp [listStarts]
    | cons d ds =>
      constructor
      · intro h
        simp only [listStarts] at h
        split at h
        · rename_i hcd
          obtain ⟨t, ht⟩ := (ih ds).mp h
          exact ⟨t, by simp [hcd, ht]⟩
        · exact absurd h (by simp)
      · rintro ⟨t, ht⟩
        simp only [List.cons_append, List.cons.injEq] at ht
        obtain ⟨hc, hd⟩ := ht
        subst hc
        simp only [listStarts, if_pos rfl]
        exact (ih ds).mpr ⟨t, hd⟩

theorem listStarts_length_le {a b : List Char} (h : listStarts a b = true) :
    a.length ≤ b.length := by
  obtain ⟨t, ht⟩ := (listStarts_iff a b).mp h
  subst ht
  simp

theorem listStarts_eq_of_length_eq {a b s : List Char}
    (ha : listStarts a s = true) (hb : listStarts b s = true)
    (hlen : a.length = b.length) : a = b := by
  obtain ⟨t, ht⟩ := (listStarts_iff a s).mp ha
  obtain ⟨u, hu⟩ := (listStarts_iff b s).mp hb
  subst ht
  exact (List.append_inj_left hu.symm hlen.symm).symm

/-! ## Converter data model

Modelled from the spec: "Record: a single `(prefix, uri_prefix)` association
augmented with optional synonym prefixes and synonym URI prefixes"; the
Prefix Map is the collection of such records, immutable after construction.
The field `pfx` is the record's CURIE prefix and `upfx` its URI expansion. -/

structure Record where
  pfx : String
  upfx : String
  pfxSyns : List String
  upfxSyns : List String
deriving DecidableEq, Repr

/-- A Converter is the registered collection of records (the Prefix Map). -/
abbrev Converter := List Record

/-- All registered (CURIE-prefix, URI-expansion) pairs: for each record, its
primary expansion and every synonym expansion, attributed to the record's
primary CURIE prefix. -/
def allPairs (c : Converter) : List (String × String) :=
  c.flatMap fun r => (r.upfx :: r.upfxSyns).map fun e => (r.pfx, e)

/-- The registered pairs whose URI expansion is a string prefix of `uri`. -/
def uriMatches (c : Converter) (uri : String) : List (String × String) :=
  (allPairs c).filter fun pe => listStarts pe.2.data uri.data

/-- Pick the pair with the longest URI expansion (first among ties). -/
def pickLongest : List (String × String) → Option (String × String)
  | [] => none
  | pe :: rest =>
    match pickLongest rest with
    | none => some pe
    | some qe => if qe.2.length > pe.2.length then some qe else some pe

/-- `pickLongest` of a non-empty list returns a member whose expansion length
dominates every member's. -/
theorem pickLongest_spec {l : List (String × String)} (hne : l ≠ []) :
    ∃ pe, pickLongest l = some pe ∧ pe ∈ l ∧
      ∀ qe ∈ l, qe.2.length ≤ pe.2.length := by
  induction l with
  | nil => exact absurd rfl hne
  | cons pe rest ih =>
    by_cases hr : rest = []
    · subst hr
      refine ⟨pe, ?_, by simp, ?_⟩
      · simp [pickLongest]
      · intro qe hqe
        simp only [List.mem_singleton] at hqe
        subst hqe
        exact le_refl _
    · obtain ⟨qe, hq, hqmem, hqmax⟩ := ih hr
      simp only [pickLongest, hq]
      by_cases hgt : qe.2.length > pe.2.length
      · refine ⟨qe, by simp [hgt], List.mem_cons_of_mem _ hqmem, ?_⟩
        intro re hre
        rcases List.mem_cons.mp hre with h | h
        · subst h; exact le_of_lt hgt
        · exact hqmax re h
      · refine ⟨pe, by simp [hgt], List.mem_cons_self .., ?_⟩
        intro re hre
        rcases List.mem_cons.mp hre with h | h
        · subst h; exact le_refl _
        · exact le_trans (hqmax re h) (Nat.le_of_not_lt hgt)

/-- Modelled from the spec: `compress(uri)` "finds the longest matching
registered URI-expansion prefix (checking primary and synonym expansions) and
returns `prefix:suffix`; fails (returns "no match") if no registered
expansion is a prefix of `uri`. Longest-prefix-wins tie-break is mandatory."
(The `curies.Converter.compress` body is not in the snapshot.) -/
def compress (c : Converter) (uri : String) : Option String :=
  (pickLongest (uriMatches c uri)).map fun pe =>
    pe.1 ++ ":" ++ ⟨uri.data.drop pe.2.data.length⟩

/-- Modelled from the spec: `compress_or_standardize` "attempts compression
but falls back to returning the input unchanged when no match is found". -/
def compress_or_standardize (c : Converter) (uri : String) : String :=
  (compress c uri).getD uri

/-- Split a character list at the first `:`, returning the part before and
after it; `none` when there is no `:`. -/
def splitColon : List Char → Option (List Char × List Char)
  | [] => none
  | c :: rest =>
    if c = ':' then some ([], rest)
    else (splitColon rest).map fun pr => (c :: pr.1, pr.2)

/-- Look up a CURIE prefix among the records, checking the primary prefix and
the prefix synonyms, returning the record's primary URI expansion. -/
def lookupPfx : Converter → String → Option String
  | [], _ => none
  | r :: rest, p =>
    if r.pfx = p ∨ p ∈ r.pfxSyns then some r.upfx else lookupPfx rest p

/-- Modelled from the spec: `expand(curie)` "splits on the first `:`, looks up
the prefix (checking synonyms), concatenates with the suffix; fails if the
prefix is unregistered." -/
def expand (c : Converter) (curie : String) : Option String :=
  (splitColon curie.data).bind fun pr =>
    (lookupPfx c ⟨pr.1⟩).map fun up => up ++ ⟨pr.2⟩

/-- An example Prefix Map with two records, one URI expansion a strict string
prefix of the other (the spec's own example pair). -/
def cEx : Converter :=
  [⟨"ex", "http://example.org/", [], []⟩,
   ⟨"exfoo", "http://example.org/foo", [], []⟩]

/-! ## Query Pattern Matcher

Modelled from the spec: the matcher classifies a query into "a closed set of
supported shapes" without general SPARQL parsing; following the spec's own
design note, queries are represented by a typed query structure rather than
by format strings. The `curies.mapping_service` body is not in the snapshot.
-/

/-- A term of a triple pattern: a SPARQL variable or a concrete IRI. -/
inductive Term where
  | var (name : String)
  | iri (value : String)
deriving DecidableEq, Repr

/-- A single triple pattern `subj pred obj`. -/
structure TriplePattern where
  subj : Term
  pred : Term
  obj : Term
deriving DecidableEq, Repr

/-- The `owl:sameAs` predicate IRI served by the mapping service. -/
def owlSameAs : String := "http://www.w3.org/2002/07/owl#sameAs"

/-- The SPARQL graph patterns the service can receive: a basic triple
pattern, a `VALUES`-wrapped pattern, a `FILTER`-constrained pattern
(unsupported by the matcher), and a `SERVICE`-wrapped pattern. -/
inductive GraphPattern where
  | basic (tp : TriplePattern)
  | withValues (v : String) (iris : List String) (tp : TriplePattern)
  | withFilter (cond : String) (inner : GraphPattern)
  | withService (endpoint : String) (inner : GraphPattern)
deriving DecidableEq, Repr

/-- The supported query shapes, with the terms extracted for answering. -/
inductive Shape where
  | subjBound (s : String) (oVar : String)
  | objBound (sVar : String) (o : String)
  | valuesSubj (iris : List String) (oVar : String)
deriving DecidableEq, Repr

/-- Classify a bare triple pattern: `owl:sameAs` with exactly one side bound. -/
def matchTriple : TriplePattern → Option Shape
  | ⟨.iri s, .iri pIri, .var o⟩ =>
    if pIri = owlSameAs then some (.subjBound s o) else none
  | ⟨.var s, .iri pIri, .iri o⟩ =>
    if pIri = owlSameAs then some (.objBound s o) else none
  | _ => none

/-- Modelled from the spec: classify a query into a supported shape.
`VALUES`-wrapped `owl:sameAs` patterns bind the subject per listed IRI; a
`SERVICE` wrapper is seen through to the inner pattern; `FILTER` and every
other form is unsupported (`none`). -/
def matchQuery : GraphPattern → Option Shape
  | .basic tp => matchTriple tp
  | .withValues v iris ⟨.var s, .iri pIri, .var o⟩ =>
    if pIri = owlSameAs ∧ s = v then some (.valuesSubj iris o) else none
  | .withValues _ _ _ => none
  | .withFilter _ _ => none
  | .withService _ inner => matchQuery inner

/-- A solution row: the `(subject, object)` canonical pair of bound values
(the comparison unit `get_sparql_record_so_tuples` reduces bindings to in
`tests/cases.py`). -/
abbrev Binding := String × String

/-- Modelled from the spec: the configured mapping convention renders a
compressed CURIE as an object IRI under the Bioregistry base (end-to-end
scenario 1 expects `https://bioregistry.io/chebi:24867`). -/
def curieBase : String := "https://bioregistry.io/"

/-- The object IRI equivalent to `uri`: its compressed CURIE rendered under
`curieBase`. -/
def compressedIri (c : Converter) (uri : String) : Option String :=
  (compress c uri).map fun cur => curieBase ++ cur

/-- The subject IRI equivalent to an object IRI of the form
`curieBase ++ curie`: the expansion of that CURIE. -/
def expandedIri (c : Converter) (uri : String) : Option String :=
  if listStarts curieBase.data uri.data then
    expand c ⟨uri.data.drop curieBase.data.length⟩
  else none

/-- Answer a matched shape from the Prefix Map: one row per resolvable bound
term, duplicate rows suppressed (`DISTINCT` semantics). -/
def answerShape (c : Converter) : Shape → List Binding
  | .subjBound s _ =>
    match compressedIri c s with
    | some o => [(s, o)]
    | none => []
  | .objBound _ o =>
    match expandedIri c o with
    | some s => [(s, o)]
    | none => []
  | .valuesSubj iris _ =>
    (iris.filterMap fun i => (compressedIri c i).map fun o => (i, o)).dedup

/-- The error conditions a request can end in: an unsupported query shape, or
no acceptable output format. -/
inductive QueryError where
  | unsupportedQuery
  | notAcceptable
deriving DecidableEq, Repr

/-- Modelled from the spec: answering a classified query — an unsupported
shape is rejected with a structured error, never coerced into an empty
result set. -/
def answerQuery (c : Converter) (q : GraphPattern) : Except QueryError (List Binding) :=
  match matchQuery q with
  | none => .error .unsupportedQuery
  | some sh => .ok (answerShape c sh)

/-- The example Prefix Map of the end-to-end scenarios:
`chebi → http://purl.obolibrary.org/obo/CHEBI_`. -/
def cChebi : Converter :=
  [⟨"chebi", "http://purl.obolibrary.org/obo/CHEBI_", [], []⟩]

/-- The simple-shape query of end-to-end scenario 1: `?s owl:sameAs ?o` with
`?s` bound to `<http://purl.obolibrary.org/obo/CHEBI_24867>`. -/
def qSimpleChebi : GraphPattern :=
  .basic ⟨.iri "http://purl.obolibrary.org/obo/CHEBI_24867", .iri owlSameAs, .var "o"⟩

/-- A `VALUES ?v \x7b iris \x7d . ?v owl:sameAs ?oV` query (end-to-end
scenario 2 uses two CHEBI IRIs). -/
def qValues (v oV : String) (iris : List String) : GraphPattern :=
  .withValues v iris ⟨.var v, .iri owlSameAs, .var oV⟩

/-- An unsupported query shape: a `FILTER` constraining the basic pattern
(end-to-end scenario 4). -/
def qFilter : GraphPattern :=
  .withFilter "regex" (.basic ⟨.var "s", .iri owlSameAs, .var "o"⟩)

/-! ## Result Serializer / Deserializer

Modelled from the spec: bindings over the variables `{s, o}` are rendered to
the SPARQL results JSON shape, the SPARQL results XML shape, and CSV (header
row of variable names, one quoted row per binding), and each format is parsed
back into the same binding representation with equivalent fidelity. The
serializers work on `List Char` (`String.data`). -/

/-- JSON string escaping of one character (`"` and `\` get a backslash). -/
def jEscChar (ch : Char) : List Char :=
  if ch = '"' ∨ ch = '\\' then ['\\', ch] else [ch]

def jEscStr (s : List Char) : List Char := s.flatMap jEscChar

/-- A JSON string literal: quoted, escaped content. -/
def jQuote (s : List Char) : List Char := '"' :: (jEscStr s ++ ['"'])

def jHead : List Char :=
  ("\x7b\"head\":\x7b\"vars\":[\"s\",\"o\"]\x7d,\"results\":\x7b\"bindings\":[" : String).data

def jPreS : List Char := '\x7b' :: ("\"s\":\x7b\"type\":\"uri\",\"value\":" : String).data

def jMidO : List Char := ("\x7d,\"o\":\x7b\"type\":\"uri\",\"value\":" : String).data

def jEndB : List Char := ("\x7d\x7d" : String).data

def jTail : List Char := ']' :: ("\x7d\x7d" : String).data

/-- Render one binding as a JSON results object. -/
def jBindR (b : Binding) : List Char :=
  jPreS ++ jQuote b.1.data ++ jMidO ++ jQuote b.2.data ++ jEndB

/-- Render the remaining bindings, each preceded by a comma, then close. -/
def jRowsRestR : List Binding → List Char
  | [] => jTail
  | b :: bs => ',' :: (jBindR b ++ jRowsRestR bs)

/-- Render the bindings array content and the closing brackets. -/
def jRowsR : List Binding → List Char
  | [] => jTail
  | b :: bs => jBindR b ++ jRowsRestR bs

/-- Serialize bindings in the SPARQL results JSON shape. -/
def serializeJSON (bs : List Binding) : List Char := jHead ++ jRowsR bs

/-- Consume an expected literal token off the front of the input. -/
def expectTok : List Char → List Char → Option (List Char)
  | [], input => some input
  | _ :: _, [] => none
  | t :: ts, ch :: cs => if ch = t then expectTok ts cs else none

/-- Parse the interior of a JSON string up to its closing quote, undoing the
escaping; returns the content and the input after the closing quote. -/
def parseJStrAux : List Char → Option (List Char × List Char)
  | [] => none
  | ch :: rest =>
    if ch = '\\' then
      match rest with
      | [] => none
      | ch2 :: rest2 => (parseJStrAux rest2).map fun pr => (ch2 :: pr.1, pr.2)
    else if ch = '"' then some ([], rest)
    else (parseJStrAux rest).map fun pr => (ch :: pr.1, pr.2)

/-- Parse a JSON string literal. -/
def parseJStr : List Char → Option (List Char × List Char)
  | '"' :: rest => parseJStrAux rest
  | _ => none

/-- Parse one JSON results binding object. -/
def parseJBind (input : List Char) : Option (Binding × List Char) :=
  (expectTok jPreS input).bind fun r1 =>
  (parseJStr r1).bind fun sv =>
  (expectTok jMidO sv.2).bind fun r3 =>
  (parseJStr r3).bind fun ov =>
  (expectTok jEndB ov.2).map fun r5 => ((⟨sv.1⟩, ⟨ov.1⟩), r5)

/-- Parse `(',' binding)* ']⟩⟩'` with explicit fuel. -/
def parseJRowsRest : Nat → List Char → Option (List Binding × List Char)
  | 0, _ => none
  | fuel + 1, input =>
    match expectTok jTail input with
    | some rest => some ([], rest)
    | none =>
      match input with
      | ',' :: r1 =>
        (parseJBind r1).bind fun br =>
        (parseJRowsRest fuel br.2).map fun bsr => (br.1 :: bsr.1, bsr.2)
      | _ => none

/-- Parse the bindings array content: empty, or a binding then the rest. -/
def parseJRows (fuel : Nat) (input : List Char) : Option (List Binding × List Char) :=
  match expectTok jTail input with
  | some rest => some ([], rest)
  | none =>
    (parseJBind input).bind fun br =>
    (parseJRowsRest fuel br.2).map fun bsr => (br.1 :: bsr.1, bsr.2)

/-- Deserialize the SPARQL results JSON shape. -/
def deserializeJSON (input : List Char) : Option (List Binding) :=
  (expectTok jHead input).bind fun r1 =>
  (parseJRows r1.length r1).bind fun bsr =>
  if bsr.2 = [] then some bsr.1 else none

/-- XML text escaping of one character (`&`, `<`, `>`). -/
def xEscChar (ch : Char) : List Char :=
  if ch = '&' then ['&', 'a', 'm', 'p', ';']
  else if ch = '<' then ['&', 'l', 't', ';']
  else if ch = '>' then ['&', 'g', 't', ';']
  else [ch]

def xEscStr (s : List Char) : List Char := s.flatMap xEscChar

def xHead : List Char :=
  ("<?xml version=\"1.0\"?><sparql xmlns=\"http://www.w3.org/2005/sparql-results#\"><head><variable name=\"s\"/><variable name=\"o\"/></head><results>" : String).data

def xRowPre : List Char := '<' :: 'r' :: ("esult><binding name=\"s\"><uri>" : String).data

def xMid : List Char := '<' :: ("/uri></binding><binding name=\"o\"><uri>" : String).data

def xRowEnd : List Char := '<' :: ("/uri></binding></result>" : String).data

def xTail : List Char := '<' :: '/' :: ("results></sparql>" : String).data

/-- Render one binding as a SPARQL results XML `result` element. -/
def xRowR (b : Binding) : List Char :=
  xRowPre ++ xEscStr b.1.data ++ xMid ++ xEscStr b.2.data ++ xRowEnd

def xRowsR : List Binding → List Char
  | [] => xTail
  | b :: bs => xRowR b ++ xRowsR bs

/-- Serialize bindings in the SPARQL results XML shape. -/
def serializeXML (bs : List Binding) : List Char := xHead ++ xRowsR bs

/-- Parse XML element text up to the next `<`, undoing the escaping; the `<`
is left in the remaining input. -/
def parseXText : List Char → Option (List Char × List Char)
  | [] => none
  | ch :: rest =>
    if ch = '<' then some ([], ch :: rest)
    else if ch = '&' then
      match rest with
      | 'a' :: 'm' :: 'p' :: ';' :: r2 =>
        (parseXText r2).map fun pr => ('&' :: pr.1, pr.2)
      | 'l' :: 't' :: ';' :: r2 =>
        (parseXText r2).map fun pr => ('<' :: pr.1, pr.2)
      | 'g' :: 't' :: ';' :: r2 =>
        (parseXText r2).map fun pr => ('>' :: pr.1, pr.2)
      | _ => none
    else (parseXText rest).map fun pr => (ch :: pr.1, pr.2)

/-- Parse one XML `result` element. -/
def parseXRow (input : List Char) : Option (Binding × List Char) :=
  (expectTok xRowPre input).bind fun r1 =>
  (parseXText r1).bind fun sv =>
  (expectTok xMid sv.2).bind fun r3 =>
  (parseXText r3).bind fun ov =>
  (expectTok xRowEnd ov.2).map fun r5 => ((⟨sv.1⟩, ⟨ov.1⟩), r5)

/-- Parse the XML `result` elements up to the closing tags, with fuel. -/
def parseXRows : Nat → List Char → Option (List Binding × List Char)
  | 0, _ => none
  | fuel + 1, input =>
    match expectTok xTail input with
    | some rest => some ([], rest)
    | none =>
      (parseXRow input).bind fun br =>
      (parseXRows fuel br.2).map fun bsr => (br.1 :: bsr.1, bsr.2)

/-- Deserialize the SPARQL results XML shape. -/
def deserializeXML (input : List Char) : Option (List Binding) :=
  (expectTok xHead input).bind fun r1 =>
  (parseXRows r1.length r1).bind fun bsr =>
  if bsr.2 = [] then some bsr.1 else none

/-- CSV field escaping: fields are quoted, interior quotes doubled. -/
def cEscStr (s : List Char) : List Char :=
  s.flatMap fun ch => if ch = '"' then ['"', '"'] else [ch]

def csvHeader : List Char := ("s,o\n" : String).data

/-- Render one binding as a CSV row of two quoted fields. -/
def csvRowR (b : Binding) : List Char :=
  '"' :: (cEscStr b.1.data ++ ('"' :: ',' :: '"' :: (cEscStr b.2.data ++ ['"', '\n'])))

def csvRowsR : List Binding → List Char
  | [] => []
  | b :: bs => csvRowR b ++ csvRowsR bs

/-- Serialize bindings as CSV: a header row, one row per binding. -/
def serializeCSV (bs : List Binding) : List Char := csvHeader ++ csvRowsR bs

/-- Parse the interior of a quoted CSV field up to its closing quote, undoing
the quote doubling. -/
def parseQField : List Char → Option (List Char × List Char)
  | [] => none
  | ch :: rest =>
    if ch = '"' then
      match rest with
      | '"' :: r2 => (parseQField r2).map fun pr => ('"' :: pr.1, pr.2)
      | _ => some ([], rest)
    else (parseQField rest).map fun pr => (ch :: pr.1, pr.2)

/-- Parse one CSV row of two quoted fields. -/
def parseCsvRow (input : List Char) : Option (Binding × List Char) :=
  (expectTok ['"'] input).bind fun r1 =>
  (parseQField r1).bind fun sv =>
  (expectTok [',', '"'] sv.2).bind fun r3 =>
  (parseQField r3).bind fun ov =>
  (expectTok ['\n'] ov.2).map fun r5 => ((⟨sv.1⟩, ⟨ov.1⟩), r5)

/-- Parse CSV rows until the end of the input, with fuel. -/
def parseCsvRows (fuel : Nat) (input : List Char) : Option (List Binding × List Char) :=
  if input = [] then some ([], [])
  else
    match fuel with
    | 0 => none
    | fuel + 1 =>
      (parseCsvRow input).bind fun br =>
      (parseCsvRows fuel br.2).map fun bsr => (br.1 :: bsr.1, bsr.2)

/-- Deserialize CSV: header row, then one row per binding. -/
def deserializeCSV (input : List Char) : Option (List Binding) :=
  (expectTok csvHeader input).bind fun r1 =>
  (parseCsvRows r1.length r1).map fun bsr => bsr.1

def tsvHeader : List Char := ("s\to\n" : String).data

/-- Serialize bindings as TSV: a header row, raw values joined by tabs. -/
def serializeTSV (bs : List Binding) : List Char :=
  tsvHeader ++ (bs.map fun b => b.1.data ++ '\t' :: (b.2.data ++ ['\n'])).flatten

/-- Take characters up to a stop character, consuming it. -/
def takeUntil (stop : Char) : List Char → List Char × List Char
  | [] => ([], [])
  | ch :: rest =>
    if ch = stop then ([], rest)
    else
      let pr := takeUntil stop rest
      (ch :: pr.1, pr.2)

/-- Parse TSV rows until the end of the input, with fuel. -/
def parseTsvRows : Nat → List Char → Option (List Binding)
  | _, [] => some []
  | 0, _ :: _ => none
  | fuel + 1, ch :: cs =>
    let sv := takeUntil '\t' (ch :: cs)
    let ov := takeUntil '\n' sv.2
    (parseTsvRows fuel ov.2).map fun bs => (⟨sv.1⟩, ⟨ov.1⟩) :: bs

/-- Deserialize TSV: header row, then one row per binding. -/
def deserializeTSV (input : List Char) : Option (List Binding) :=
  (expectTok tsvHeader input).bind fun r1 => parseTsvRows r1.length r1

/-- The wire formats the service can emit. -/
inductive Fmt where
  | json
  | xml
  | csv
  | tsv
deriving DecidableEq, Repr

def serialize : Fmt → List Binding → List Char
  | .json, bs => serializeJSON bs
  | .xml, bs => serializeXML bs
  | .csv, bs => serializeCSV bs
  | .tsv, bs => serializeTSV bs

def deserialize : Fmt → List Char → Option (List Binding)
  | .json, s => deserializeJSON s
  | .xml, s => deserializeXML s
  | .csv, s => deserializeCSV s
  | .tsv, s => deserializeTSV s

/-! ## Mapping Endpoint: content negotiation and request handling

Modelled from the spec: the `Accept` header is a list of media types; the
negotiation algorithm is an explicit list of (MIME type → serializer) pairs
with deterministic tie-break — first exact match, else first compatible
wildcard; if none of the requested types are supported the request ends in a
"not acceptable" condition rather than a silently chosen default. -/

def supportedTypes : List (String × Fmt) :=
  [("application/sparql-results+json", .json),
   ("application/sparql-results+xml", .xml),
   ("text/csv", .csv),
   ("text/tab-separated-values", .tsv)]

/-- The major part of a media type: the characters before the `/`. -/
def beforeSlash : List Char → List Char
  | [] => []
  | ch :: rest => if ch = '/' then [] else ch :: beforeSlash rest

/-- Whether a requested media type is a wildcard (ends in `/*`). -/
def wildcardType (t : String) : Bool :=
  match t.data.reverse with
  | '*' :: '/' :: _ => true
  | _ => false

/-- Content negotiation: first exact match against the supported list, else
the first wildcard entry matched against the supported list; `none` when no
requested type is acceptable. -/
def negotiate (accept : List String) : Option Fmt :=
  match accept.find? (fun t => supportedTypes.any fun pe => pe.1 == t) with
  | some t => (supportedTypes.find? fun pe => pe.1 == t).map Prod.snd
  | none =>
    match accept.find? wildcardType with
    | some t =>
      if t = "*/*" then some .json
      else
        (supportedTypes.find? fun pe =>
          beforeSlash pe.1.data == beforeSlash t.data).map Prod.snd
    | none => none

def fmtContentType : Fmt → String
  | .json => "application/sparql-results+json"
  | .xml => "application/sparql-results+xml"
  | .csv => "text/csv"
  | .tsv => "text/tab-separated-values"

/-- An inbound request: the query and the `Accept` media-type list. -/
structure Request where
  query : GraphPattern
  accept : List String
deriving DecidableEq, Repr

/-- A successful response: the chosen content type and the serialized body. -/
structure Response where
  contentType : String
  body : List Char
deriving DecidableEq, Repr

/-- Modelled from the spec: per-request state machine of the Mapping
Endpoint — classify the query (unsupported shape ⇒ error), negotiate the
output format (no acceptable type ⇒ error), answer and serialize. -/
def respond (c : Converter) (req : Request) : Except QueryError Response :=
  match matchQuery req.query with
  | none => .error .unsupportedQuery
  | some sh =>
    match negotiate req.accept with
    | none => .error .notAcceptable
    | some fmt => .ok ⟨fmtContentType fmt, serialize fmt (answerShape c sh)⟩

/-! ## SPARQL Client Utility -/

/-- The observable outcome of one HTTP SPARQL exchange: a response with a
status and body, a refused connection, or a timeout. -/
inductive NetResult where
  | ok (status : Nat) (body : List Char)
  | connRefused
  | timedOut
deriving DecidableEq, Repr

/-- Modelled from the spec: `sparql_service_available(endpoint)` performs the
health probe with a short timeout and returns a boolean — `true` only when
the probe query comes back with a success status and parseable results; any
transport failure is caught and yields `false`. The HTTP layer is an
abstract oracle mapping the endpoint to the exchange's outcome. -/
def sparql_service_available (net : String → NetResult) (endpoint : String) : Bool :=
  match net endpoint with
  | .ok status body => status == 200 && (deserializeJSON body).isSome
  | .connRefused => false
  | .timedOut => false

/-! ## Version module (`src/curies/version.py`) -/

/-- The module constant `VERSION` of `src/curies/version.py`. -/
def VERSION : String := "0.1.1-dev"

/-- `get_version` from `src/curies/version.py`: returns `VERSION`. -/
def get_version : Unit → String := fun _ => VERSION

theorem strLength_eq (s : String) : s.length = s.data.length := rfl

theorem strData_append (a b : String) : (a ++ b).data = a.data ++ b.data := rfl

theorem strMk_data (s : String) : (⟨s.data⟩ : String) = s := rfl

theorem splitColon_append (a rest : List Char) (ha : ':' ∉ a) :
    splitColon (a ++ ':' :: rest) = some (a, rest) := by
  induction a with
  | nil => simp [splitColon]
  | cons c cs ih =>
    have hc : c ≠ ':' := fun h => ha (h ▸ List.mem_cons_self ..)
    simp only [List.cons_append, splitColon, if_neg hc, List.append_eq,
      ih (fun h => ha (List.mem_cons_of_mem _ h))]
    rfl

theorem strData_inj {a b : String} (h : a.data = b.data) : a = b := by
  cases a; cases b; exact congrArg String.mk h

theorem mem_uriMatches {c : Converter} {uri : String} {pe : String × String} :
    pe ∈ uriMatches c uri ↔
      pe ∈ allPairs c ∧ listStarts pe.2.data uri.data = true := by
  simp [uriMatches, List.mem_filter]

/-- C1: for every URI that starts with two or more registered URI-expansion
strings (primary or synonym) where one expansion is a strict string-prefix of
another, `compress` selects the longest matching expansion and returns the
CURIE built from the prefix registered for that longest expansion. -/
theorem compress_longest_wins (c : Converter) (uri p1 e1 p2 e2 : String)
    (h1 : (p1, e1) ∈ allPairs c) (h2 : (p2, e2) ∈ allPairs c)
    (hpre : listStarts e1.data e2.data = true) (hne : e1 ≠ e2)
    (hmatch : listStarts e2.data uri.data = true) :
    ∃ p e, (p, e) ∈ allPairs c ∧ listStarts e.data uri.data = true ∧
      (∀ p' e', (p', e') ∈ allPairs c → listStarts e'.data uri.data = true →
        e'.length ≤ e.length) ∧
      e1.length < e.length ∧
      compress c uri = some (p ++ ":" ++ ⟨uri.data.drop e.data.length⟩) := by
  have hmem : (p2, e2) ∈ uriMatches c uri := mem_uriMatches.mpr ⟨h2, hmatch⟩
  have hne' : uriMatches c uri ≠ [] := fun h => by simp [h] at hmem
  obtain ⟨⟨p, e⟩, hpick, hmm, hmax⟩ := pickLongest_spec hne'
  obtain ⟨hpairs, hstarts⟩ := mem_uriMatches.mp hmm
  refine ⟨p, e, hpairs, hstarts, ?_, ?_, ?_⟩
  · intro p' e' hp' hs'
    exact hmax (p', e') (mem_uriMatches.mpr ⟨hp', hs'⟩)
  · have h2e : e2.length ≤ e.length := hmax (p2, e2) hmem
    have h12 : e1.length < e2.length := by
      obtain ⟨t, ht⟩ := (listStarts_iff _ _).mp hpre
      have htne : t ≠ [] := by
        intro hnil
        subst hnil
        exact hne (strData_inj (by simpa using ht.symm))
      rw [strLength_eq, strLength_eq, ht, List.length_append]
      have : 0 < t.length := List.length_pos.mpr htne
      omega
    exact lt_of_lt_of_le h12 h2e
  · simp [compress, hpick]

/-- Witness for C1 at the spec's example registry and a concrete URI. -/
theorem compress_longest_wins_witness :
    ("ex", "http://example.org/") ∈ allPairs cEx ∧
    ("exfoo", "http://example.org/foo") ∈ allPairs cEx ∧
    ∃ p e, (p, e) ∈ allPairs cEx ∧
      listStarts e.data "http://example.org/foo123".data = true ∧
      (∀ p' e', (p', e') ∈ allPairs cEx →
        listStarts e'.data "http://example.org/foo123".data = true →
        e'.length ≤ e.length) ∧
      ("http://example.org/" : String).length < e.length ∧
      compress cEx "http://example.org/foo123" =
        some (p ++ ":" ++ ⟨"http://example.org/foo123".data.drop e.data.length⟩) :=
  ⟨by decide, by decide,
    compress_longest_wins cEx "http://example.org/foo123"
      "ex" "http://example.org/" "exfoo" "http://example.org/foo"
      (by decide) (by decide) (by decide) (by decide) (by decide)⟩

/-- C2: for every registered `(prefix, uri_prefix)` pair resolving uniquely,
and every non-empty suffix such that `uri_prefix ++ suffix` starts with no
longer registered expansion, compression followed by expansion is the
identity: `compress` yields the CURIE `prefix:suffix` and `expand` maps it
back to `uri_prefix ++ suffix`. -/
theorem expand_compress_roundtrip (c : Converter) (p up suffix : String)
    (hreg : (p, up) ∈ allPairs c)
    (hsuf : suffix ≠ "")
    (hnolonger : ∀ p' e', (p', e') ∈ allPairs c →
      listStarts e'.data (up ++ suffix).data = true → e'.length ≤ up.length)
    (hunique : ∀ p' e', (p', e') ∈ allPairs c → e' = up → p' = p)
    (hlookup : lookupPfx c p = some up)
    (hcolon : ':' ∉ p.data) :
    compress c (up ++ suffix) = some (p ++ ":" ++ suffix) ∧
    expand c (p ++ ":" ++ suffix) = some (up ++ suffix) := by
  have hupstart : listStarts up.data (up ++ suffix).data = true := by
    rw [strData_append]; exact listStarts_append _ _
  have hm : (p, up) ∈ uriMatches c (up ++ suffix) :=
    mem_uriMatches.mpr ⟨hreg, hupstart⟩
  have hne' : uriMatches c (up ++ suffix) ≠ [] := fun h => by simp [h] at hm
  obtain ⟨⟨p₀, e₀⟩, hpick, hmm, hmax⟩ := pickLongest_spec hne'
  obtain ⟨hp₀, hs₀⟩ := mem_uriMatches.mp hmm
  have hle : e₀.length ≤ up.length := hnolonger p₀ e₀ hp₀ hs₀
  have hge : up.length ≤ e₀.length := hmax (p, up) hm
  have hlen : e₀.data.length = up.data.length := by
    rw [← strLength_eq, ← strLength_eq]
    exact le_antisymm hle hge
  have he₀ : e₀ = up :=
    strData_inj (listStarts_eq_of_length_eq hs₀ hupstart hlen)
  have hpp : p₀ = p := hunique p₀ e₀ hp₀ he₀
  have hpick' : pickLongest (uriMatches c (up ++ suffix)) = some (p, up) := by
    rw [hpick, he₀, hpp]
  constructor
  · simp [compress, hpick', strData_append, List.drop_left, strMk_data]
  · have hdata : (p ++ ":" ++ suffix).data = p.data ++ ':' :: suffix.data := by
      rw [strData_append, strData_append]
      simp [show (":" : String).data = [':'] from rfl]
    simp [expand, hdata, splitColon_append _ _ hcolon, hlookup, strMk_data]

/-- Witness for C2 at a concrete registry, pair and suffix. -/
theorem expand_compress_roundtrip_witness :
    ("ex", "http://example.org/") ∈ allPairs cEx ∧ ("abc" : String) ≠ "" ∧
    compress cEx ("http://example.org/" ++ "abc") = some ("ex" ++ ":" ++ "abc") ∧
    expand cEx ("ex" ++ ":" ++ "abc") = some ("http://example.org/" ++ "abc") :=
  ⟨by decide, by decide,
    expand_compress_roundtrip cEx "ex" "http://example.org/" "abc"
      (by decide) (by decide)
      (by
        intro p' e' h hs
        rw [show allPairs cEx =
          [("ex", "http://example.org/"), ("exfoo", "http://example.org/foo")]
          from rfl] at h
        simp only [List.mem_cons, List.not_mem_nil, or_false,
          Prod.mk.injEq] at h
        rcases h with ⟨h1, h2⟩ | ⟨h1, h2⟩ <;> subst h1 <;> subst h2
        · decide
        · exact absurd hs (by decide))
      (by
        intro p' e' h he
        rw [show allPairs cEx =
          [("ex", "http://example.org/"), ("exfoo", "http://example.org/foo")]
          from rfl] at h
        simp only [List.mem_cons, List.not_mem_nil, or_false,
          Prod.mk.injEq] at h
        rcases h with ⟨h1, h2⟩ | ⟨h1, h2⟩ <;> subst h1 <;> subst h2
        · rfl
        · exact absurd he (by decide))
      (by decide) (by decide)⟩

/-- C3: `compress` on a URI of which no registered URI expansion (primary or
synonym) is a string prefix returns the no-match value `none`, and
`compress_or_standardize` on the same input returns the input unchanged. -/
theorem compress_no_match (c : Converter) (uri : String)
    (h : ∀ p e, (p, e) ∈ allPairs c → ¬ listStarts e.data uri.data = true) :
    compress c uri = none ∧ compress_or_standardize c uri = uri := by
  have hm : uriMatches c uri = [] := by
    rw [uriMatches, List.filter_eq_nil_iff]
    intro pe hpe
    simpa using h pe.1 pe.2 hpe
  refine ⟨?_, ?_⟩
  · simp [compress, hm, pickLongest]
  · simp [compress_or_standardize, compress, hm, pickLongest]

/-- Witness for C3 at a concrete registry and a URI matching no expansion. -/
theorem compress_no_match_witness :
    compress cEx "https://other.example/xyz" = none ∧
    compress_or_standardize cEx "https://other.example/xyz" =
      "https://other.example/xyz" :=
  compress_no_match cEx "https://other.example/xyz"
    (by
      intro p e h
      rw [show allPairs cEx =
        [("ex", "http://example.org/"), ("exfoo", "http://example.org/foo")]
        from rfl] at h
      simp only [List.mem_cons, List.not_mem_nil, or_false,
        Prod.mk.injEq] at h
      rcases h with ⟨h1, h2⟩ | ⟨h1, h2⟩ <;> subst h1 <;> subst h2 <;> decide)


theorem expectTok_append (t rest : List Char) : expectTok t (t ++ rest) = some rest := by
  induction t with
  | nil => rfl
  | cons c cs ih => simp [expectTok, ih]

theorem expectTok_cons_ne {t ch : Char} (h : ch ≠ t) (ts cs : List Char) :
    expectTok (t :: ts) (ch :: cs) = none := by
  simp [expectTok, h]

theorem jEscStr_cons (c : Char) (cs : List Char) :
    jEscStr (c :: cs) = jEscChar c ++ jEscStr cs := rfl

theorem parseJStrAux_esc (s rest : List Char) :
    parseJStrAux (jEscStr s ++ '"' :: rest) = some (s, rest) := by
  induction s with
  | nil =>
    show parseJStrAux ('"' :: rest) = some ([], rest)
    rw [parseJStrAux.eq_def]
    simp
  | cons c cs ih =>
    by_cases hc : c = '"' ∨ c = '\\'
    · have h : jEscStr (c :: cs) ++ '"' :: rest =
          '\\' :: c :: (jEscStr cs ++ '"' :: rest) := by
        simp [jEscStr_cons, jEscChar, hc]
      rw [h, parseJStrAux.eq_def]
      simp [ih]
    · push_neg at hc
      have h : jEscStr (c :: cs) ++ '"' :: rest =
          c :: (jEscStr cs ++ '"' :: rest) := by
        simp [jEscStr_cons, jEscChar, hc.1, hc.2]
      rw [h, parseJStrAux.eq_def]
      simp [hc.1, hc.2, ih]

theorem parseJStr_quote (s rest : List Char) :
    parseJStr (jQuote s ++ rest) = some (s, rest) := by
  have h : jQuote s ++ rest = '"' :: (jEscStr s ++ '"' :: rest) := by
    simp [jQuote]
  rw [h]
  show parseJStrAux (jEscStr s ++ '"' :: rest) = some (s, rest)
  exact parseJStrAux_esc s rest

theorem parseJBind_render (b : Binding) (rest : List Char) :
    parseJBind (jBindR b ++ rest) = some (b, rest) := by
  have h : jBindR b ++ rest =
      jPreS ++ (jQuote b.1.data ++ (jMidO ++ (jQuote b.2.data ++ (jEndB ++ rest)))) := by
    simp [jBindR, List.append_assoc]
  rw [parseJBind, h]
  simp [expectTok_append, parseJStr_quote, strMk_data]

theorem expectTok_jTail_jBindR (b : Binding) (rest : List Char) :
    expectTok jTail (jBindR b ++ rest) = none := by
  have h : jBindR b ++ rest = '\x7b' ::
      (("\"s\":\x7b\"type\":\"uri\",\"value\":" : String).data ++
        (jQuote b.1.data ++ (jMidO ++ (jQuote b.2.data ++ (jEndB ++ rest))))) := by
    simp [jBindR, jPreS, List.append_assoc]
  rw [h, show jTail = ']' :: ("\x7d\x7d" : String).data from rfl]
  exact expectTok_cons_ne (by decide) _ _

theorem parseJRowsRest_render (bs : List Binding) (rest : List Char) :
    ∀ fuel, bs.length + 1 ≤ fuel →
      parseJRowsRest fuel (jRowsRestR bs ++ rest) = some (bs, rest) := by
  induction bs with
  | nil =>
    intro fuel hf
    cases fuel with
    | zero => omega
    | succ f =>
      show parseJRowsRest (f + 1) (jTail ++ rest) = _
      simp [parseJRowsRest, expectTok_append]
  | cons b bs ih =>
    intro fuel hf
    cases fuel with
    | zero => simp at hf
    | succ f =>
      have h : jRowsRestR (b :: bs) ++ rest =
          ',' :: (jBindR b ++ (jRowsRestR bs ++ rest)) := by
        simp [jRowsRestR, List.append_assoc]
      have hnone : expectTok jTail (',' :: (jBindR b ++ (jRowsRestR bs ++ rest))) = none := by
        rw [show jTail = ']' :: ("\x7d\x7d" : String).data from rfl]
        exact expectTok_cons_ne (by decide) _ _
      rw [h]
      simp [parseJRowsRest, hnone, parseJBind_render,
        ih f (by simp at hf; omega)]

theorem parseJRows_render (bs : List Binding) (rest : List Char) (fuel : Nat)
    (hf : bs.length ≤ fuel) :
    parseJRows fuel (jRowsR bs ++ rest) = some (bs, rest) := by
  cases bs with
  | nil =>
    show parseJRows fuel (jTail ++ rest) = _
    simp [parseJRows, expectTok_append]
  | cons b bs =>
    have h : jRowsR (b :: bs) ++ rest = jBindR b ++ (jRowsRestR bs ++ rest) := by
      simp [jRowsR, List.append_assoc]
    rw [h]
    simp [parseJRows, expectTok_jTail_jBindR, parseJBind_render,
      parseJRowsRest_render bs rest fuel (by simp at hf; omega)]

theorem jRowsRestR_length (bs : List Binding) :
    bs.length + 1 ≤ (jRowsRestR bs).length := by
  induction bs with
  | nil => decide
  | cons b bs ih =>
    simp only [jRowsRestR, List.length_cons, List.length_append]
    omega

theorem jRowsR_length (bs : List Binding) : bs.length ≤ (jRowsR bs).length := by
  cases bs with
  | nil => simp
  | cons b bs =>
    have := jRowsRestR_length bs
    simp only [jRowsR, List.length_cons, List.length_append]
    omega

theorem json_roundtrip (bs : List Binding) :
    deserializeJSON (serializeJSON bs) = some bs := by
  have h := parseJRows_render bs [] (jRowsR bs).length (jRowsR_length bs)
  rw [List.append_nil] at h
  simp [deserializeJSON, serializeJSON, expectTok_append, h]

theorem expectTok_cons2_ne {a b c : Char} (h : c ≠ b) (ts cs : List Char) :
    expectTok (a :: b :: ts) (a :: c :: cs) = none := by
  simp [expectTok, h]

theorem xEscStr_cons (c : Char) (cs : List Char) :
    xEscStr (c :: cs) = xEscChar c ++ xEscStr cs := rfl

theorem parseXText_esc (s t : List Char) (ht : t.head? = some '<') :
    parseXText (xEscStr s ++ t) = some (s, t) := by
  induction s with
  | nil =>
    cases t with
    | nil => simp at ht
    | cons c cs =>
      simp only [List.head?_cons, Option.some.injEq] at ht
      subst ht
      show parseXText ('<' :: cs) = some ([], '<' :: cs)
      rw [parseXText.eq_def]
      simp
  | cons c cs ih =>
    by_cases h1 : c = '&'
    · subst h1
      have h : xEscStr ('&' :: cs) ++ t =
          '&' :: 'a' :: 'm' :: 'p' :: ';' :: (xEscStr cs ++ t) := by
        simp [xEscStr_cons, xEscChar]
      rw [h, parseXText.eq_def]
      simp [ih]
    · by_cases h2 : c = '<'
      · subst h2
        have h : xEscStr ('<' :: cs) ++ t =
            '&' :: 'l' :: 't' :: ';' :: (xEscStr cs ++ t) := by
          simp [xEscStr_cons, xEscChar]
        rw [h, parseXText.eq_def]
        simp [ih]
      · by_cases h3 : c = '>'
        · subst h3
          have h : xEscStr ('>' :: cs) ++ t =
              '&' :: 'g' :: 't' :: ';' :: (xEscStr cs ++ t) := by
            simp [xEscStr_cons, xEscChar]
          rw [h, parseXText.eq_def]
          simp [ih]
        · have h : xEscStr (c :: cs) ++ t = c :: (xEscStr cs ++ t) := by
            simp [xEscStr_cons, xEscChar, h1, h2, h3]
          rw [h, parseXText.eq_def]
          simp [h1, h2, h3, ih]

theorem parseXRow_render (b : Binding) (rest : List Char) :
    parseXRow (xRowR b ++ rest) = some (b, rest) := by
  have h : xRowR b ++ rest =
      xRowPre ++ (xEscStr b.1.data ++ (xMid ++ (xEscStr b.2.data ++ (xRowEnd ++ rest)))) := by
    simp [xRowR, List.append_assoc]
  have h1 := parseXText_esc b.1.data (xMid ++ (xEscStr b.2.data ++ (xRowEnd ++ rest)))
    (by simp [xMid])
  have h2 := parseXText_esc b.2.data (xRowEnd ++ rest) (by simp [xRowEnd])
  rw [parseXRow, h]
  simp [expectTok_append, h1, h2, strMk_data]

theorem expectTok_xTail_xRowR (b : Binding) (rest : List Char) :
    expectTok xTail (xRowR b ++ rest) = none := by
  have h : xRowR b ++ rest = '<' :: 'r' ::
      (("esult><binding name=\"s\"><uri>" : String).data ++
        (xEscStr b.1.data ++ (xMid ++ (xEscStr b.2.data ++ (xRowEnd ++ rest))))) := by
    simp [xRowR, xRowPre, List.append_assoc]
  rw [h, show xTail = '<' :: '/' :: ("results></sparql>" : String).data from rfl]
  exact expectTok_cons2_ne (by decide) _ _

theorem parseXRows_render (bs : List Binding) (rest : List Char) :
    ∀ fuel, bs.length + 1 ≤ fuel →
      parseXRows fuel (xRowsR bs ++ rest) = some (bs, rest) := by
  induction bs with
  | nil =>
    intro fuel hf
    cases fuel with
    | zero => omega
    | succ f =>
      show parseXRows (f + 1) (xTail ++ rest) = _
      simp [parseXRows, expectTok_append]
  | cons b bs ih =>
    intro fuel hf
    cases fuel with
    | zero => simp at hf
    | succ f =>
      have h : xRowsR (b :: bs) ++ rest = xRowR b ++ (xRowsR bs ++ rest) := by
        simp [xRowsR, List.append_assoc]
      rw [h]
      simp [parseXRows, expectTok_xTail_xRowR, parseXRow_render,
        ih f (by simp at hf; omega)]

theorem xRowsR_length (bs : List Binding) :
    bs.length + 1 ≤ (xRowsR bs).length := by
  induction bs with
  | nil => decide
  | cons b bs ih =>
    simp only [xRowsR, List.length_cons, List.length_append, xRowR, xRowPre]
    omega

theorem xml_roundtrip (bs : List Binding) :
    deserializeXML (serializeXML bs) = some bs := by
  have h := parseXRows_render bs [] (xRowsR bs).length (by
    have := xRowsR_length bs
    omega)
  rw [List.append_nil] at h
  simp [deserializeXML, serializeXML, expectTok_append, h]

theorem cEscStr_cons (c : Char) (cs : List Char) :
    cEscStr (c :: cs) = (if c = '"' then ['"', '"'] else [c]) ++ cEscStr cs := rfl

theorem parseQField_esc (s t : List Char) (ht : t.head? ≠ some '"') :
    parseQField (cEscStr s ++ '"' :: t) = some (s, t) := by
  induction s with
  | nil =>
    show parseQField ('"' :: t) = some ([], t)
    rw [parseQField.eq_def]
    cases t with
    | nil => simp
    | cons c cs =>
      simp only [List.head?_cons, ne_eq, Option.some.injEq] at ht
      simp [ht]
  | cons c cs ih =>
    by_cases hc : c = '"'
    · subst hc
      have h : cEscStr ('"' :: cs) ++ '"' :: t =
          '"' :: '"' :: (cEscStr cs ++ '"' :: t) := by
        simp [cEscStr_cons]
      rw [h, parseQField.eq_def]
      simp [ih]
    · have h : cEscStr (c :: cs) ++ '"' :: t = c :: (cEscStr cs ++ '"' :: t) := by
        simp [cEscStr_cons, hc]
      rw [h, parseQField.eq_def]
      simp [hc, ih]

theorem parseCsvRow_render (b : Binding) (rest : List Char) :
    parseCsvRow (csvRowR b ++ rest) = some (b, rest) := by
  have h : csvRowR b ++ rest = '"' :: (cEscStr b.1.data ++ '"' ::
      (',' :: '"' :: (cEscStr b.2.data ++ '"' :: ('\n' :: rest)))) := by
    simp [csvRowR, List.append_assoc]
  have h1 := parseQField_esc b.1.data
    (',' :: '"' :: (cEscStr b.2.data ++ '"' :: ('\n' :: rest))) (by simp)
  have h2 := parseQField_esc b.2.data ('\n' :: rest) (by simp)
  rw [parseCsvRow, h]
  simp [expectTok, h1, h2, strMk_data]

theorem parseCsvRows_render (bs : List Binding) :
    ∀ fuel, bs.length ≤ fuel →
      parseCsvRows fuel (csvRowsR bs) = some (bs, []) := by
  induction bs with
  | nil =>
    intro fuel hf
    show parseCsvRows fuel [] = _
    rw [parseCsvRows.eq_def]
    simp
  | cons b bs ih =>
    intro fuel hf
    cases fuel with
    | zero => simp at hf
    | succ f =>
      have hne : csvRowR b ++ csvRowsR bs ≠ [] := by
        simp [csvRowR]
      show parseCsvRows (f + 1) (csvRowR b ++ csvRowsR bs) = _
      rw [parseCsvRows.eq_def, if_neg hne]
      simp [parseCsvRow_render, ih f (by simp at hf; omega)]

theorem csvRowsR_length (bs : List Binding) :
    bs.length ≤ (csvRowsR bs).length := by
  induction bs with
  | nil => simp [csvRowsR]
  | cons b bs ih =>
    simp only [csvRowsR, csvRowR, List.length_cons, List.length_append]
    omega

theorem csv_roundtrip (bs : List Binding) :
    deserializeCSV (serializeCSV bs) = some bs := by
  have h := parseCsvRows_render bs (csvRowsR bs).length (csvRowsR_length bs)
  simp [deserializeCSV, serializeCSV, expectTok_append, h]

/-- C7: for every binding set over the variables `s` and `o`, and each of
the JSON, XML and CSV formats, deserializing the serialization returns the
original binding set (exact list equality, hence set equality). -/
theorem serialization_roundtrip (bs : List Binding) :
    deserialize .json (serialize .json bs) = some bs ∧
    deserialize .xml (serialize .xml bs) = some bs ∧
    deserialize .csv (serialize .csv bs) = some bs :=
  ⟨json_roundtrip bs, xml_roundtrip bs, csv_roundtrip bs⟩

/-- C4: with the Prefix Map `chebi → http://purl.obolibrary.org/obo/CHEBI_`,
the simple shape query with `?s` bound to
`<http://purl.obolibrary.org/obo/CHEBI_24867>` yields exactly the binding
whose canonical pair is
`(http://purl.obolibrary.org/obo/CHEBI_24867, https://bioregistry.io/chebi:24867)`. -/
theorem simple_query_chebi :
    answerQuery cChebi qSimpleChebi = Except.ok
      [("http://purl.obolibrary.org/obo/CHEBI_24867",
        "https://bioregistry.io/chebi:24867")] := by
  rfl

/-- C5: a `VALUES` query over two distinct compressible IRIs yields exactly
two bindings, one per listed value, and each value alone yields exactly its
own binding (per-value independence). -/
theorem values_query_independent (c : Converter) (v oV i1 i2 o1 o2 : String)
    (hne : i1 ≠ i2)
    (h1 : compressedIri c i1 = some o1)
    (h2 : compressedIri c i2 = some o2) :
    answerQuery c (qValues v oV [i1, i2]) = .ok [(i1, o1), (i2, o2)] ∧
    answerQuery c (qValues v oV [i1]) = .ok [(i1, o1)] ∧
    answerQuery c (qValues v oV [i2]) = .ok [(i2, o2)] := by
  have hm : ∀ iris, matchQuery (qValues v oV iris) = some (.valuesSubj iris oV) := by
    intro iris
    simp [qValues, matchQuery]
  have hnodup : ((i1, o1) : Binding) ≠ (i2, o2) := by
    intro h
    exact hne (congrArg Prod.fst h)
  refine ⟨?_, ?_, ?_⟩
  · simp [answerQuery, hm, answerShape, h1, h2, List.dedup_cons_of_not_mem,
      hnodup]
  · simp [answerQuery, hm, answerShape, h1]
  · simp [answerQuery, hm, answerShape, h2]

/-- Witness for C5 at the scenario-2 values. -/
theorem values_query_independent_witness :
    ("http://purl.obolibrary.org/obo/CHEBI_24867" : String) ≠
      "http://purl.obolibrary.org/obo/CHEBI_24868" ∧
    compressedIri cChebi "http://purl.obolibrary.org/obo/CHEBI_24867" =
      some "https://bioregistry.io/chebi:24867" ∧
    compressedIri cChebi "http://purl.obolibrary.org/obo/CHEBI_24868" =
      some "https://bioregistry.io/chebi:24868" ∧
    answerQuery cChebi (qValues "s" "o"
        ["http://purl.obolibrary.org/obo/CHEBI_24867",
         "http://purl.obolibrary.org/obo/CHEBI_24868"]) = .ok
      [("http://purl.obolibrary.org/obo/CHEBI_24867",
        "https://bioregistry.io/chebi:24867"),
       ("http://purl.obolibrary.org/obo/CHEBI_24868",
        "https://bioregistry.io/chebi:24868")] ∧
    answerQuery cChebi (qValues "s" "o"
        ["http://purl.obolibrary.org/obo/CHEBI_24867"]) = .ok
      [("http://purl.obolibrary.org/obo/CHEBI_24867",
        "https://bioregistry.io/chebi:24867")] ∧
    answerQuery cChebi (qValues "s" "o"
        ["http://purl.obolibrary.org/obo/CHEBI_24868"]) = .ok
      [("http://purl.obolibrary.org/obo/CHEBI_24868",
        "https://bioregistry.io/chebi:24868")] :=
  ⟨by decide, by decide, by decide,
    values_query_independent cChebi "s" "o"
      "http://purl.obolibrary.org/obo/CHEBI_24867"
      "http://purl.obolibrary.org/obo/CHEBI_24868"
      "https://bioregistry.io/chebi:24867"
      "https://bioregistry.io/chebi:24868"
      (by decide) (by decide) (by decide)⟩

/-- C6: a query matching no supported shape (`FILTER`-carrying queries in
particular) makes the matcher return `none` and the service answer with the
structured `unsupportedQuery` error, never a successful (empty) result set
— so "no matches" and "cannot parse" stay distinguishable. -/
theorem unsupported_query_distinct_error :
    (∀ (c : Converter) (q : GraphPattern), matchQuery q = none →
      answerQuery c q = .error .unsupportedQuery ∧
      (∀ bs, answerQuery c q ≠ .ok bs) ∧
      (∀ req : Request, req.query = q →
        respond c req = .error .unsupportedQuery)) ∧
    (∀ (cond : String) (inner : GraphPattern),
      matchQuery (.withFilter cond inner) = none) := by
  constructor
  · intro c q hq
    refine ⟨by simp [answerQuery, hq], ?_, ?_⟩
    · intro bs
      simp [answerQuery, hq]
    · intro req hreq
      simp [respond, hreq, hq]
  · intro cond inner
    rfl

/-- Witness for C6 at a concrete `FILTER` query. -/
theorem unsupported_query_distinct_error_witness :
    matchQuery qFilter = none ∧
    answerQuery cChebi qFilter = .error .unsupportedQuery ∧
    (∀ bs, answerQuery cChebi qFilter ≠ .ok bs) :=
  ⟨rfl, (unsupported_query_distinct_error.1 cChebi qFilter rfl).1,
    (unsupported_query_distinct_error.1 cChebi qFilter rfl).2.1⟩

/-- C8: a request whose `Accept` list holds only media types outside the
supported set (and no wildcard) — `application/json` in particular — ends in
the explicit `notAcceptable` error, never in a silently chosen default
serialization. -/
theorem unsupported_accept_not_acceptable (c : Converter) (req : Request)
    (hq : matchQuery req.query ≠ none)
    (hacc : ∀ t ∈ req.accept,
      (∀ pe ∈ supportedTypes, t ≠ pe.1) ∧ wildcardType t = false) :
    respond c req = .error .notAcceptable ∧ ∀ r, respond c req ≠ .ok r := by
  have hfind1 : req.accept.find?
      (fun t => supportedTypes.any fun pe => pe.1 == t) = none := by
    rw [List.find?_eq_none]
    intro t ht
    simp only [List.any_eq_true, beq_iff_eq, not_exists]
    intro pe h
    exact (hacc t ht).1 pe h.1 h.2.symm
  have hfind2 : req.accept.find? wildcardType = none := by
    rw [List.find?_eq_none]
    intro t ht
    simp [(hacc t ht).2]
  have hneg : negotiate req.accept = none := by
    simp [negotiate, hfind1, hfind2]
  cases hmq : matchQuery req.query with
  | none => exact absurd hmq hq
  | some sh =>
    constructor
    · simp [respond, hmq, hneg]
    · intro r
      simp [respond, hmq, hneg]

/-- Witness for C8: `Accept: application/json` against the scenario-1 query. -/
theorem unsupported_accept_not_acceptable_witness :
    matchQuery qSimpleChebi ≠ none ∧
    respond cChebi ⟨qSimpleChebi, ["application/json"]⟩ =
      .error .notAcceptable :=
  ⟨by decide,
    (unsupported_accept_not_acceptable cChebi
      ⟨qSimpleChebi, ["application/json"]⟩ (by decide) (by decide)).1⟩

/-- C9: against an endpoint whose connection is refused,
`sparql_service_available` returns `false` (it is a total boolean function
of the transport outcome, so no exception escapes to the caller). -/
theorem service_available_conn_refused (net : String → NetResult)
    (endpoint : String) (h : net endpoint = .connRefused) :
    sparql_service_available net endpoint = false := by
  simp [sparql_service_available, h]

/-- Witness for C9 at a concrete refusing transport and endpoint. -/
theorem service_available_conn_refused_witness :
    ((fun _ => NetResult.connRefused) : String → NetResult)
      "http://localhost:8889/blazegraph/namespace/kb/sparql" = .connRefused ∧
    sparql_service_available (fun _ => NetResult.connRefused)
      "http://localhost:8889/blazegraph/namespace/kb/sparql" = false :=
  ⟨rfl, service_available_conn_refused _ _ rfl⟩

/-- C10: `get_version` takes no data and returns exactly the module constant
`VERSION`, the string `0.1.1-dev`; it is pure and deterministic. -/
theorem get_version_spec :
    get_version () = "0.1.1-dev" ∧
    (∀ u : Unit, get_version u = VERSION) ∧
    (∀ u₁ u₂ : Unit, get_version u₁ = get_version u₂) :=
  ⟨rfl, fun _ => rfl, fun _ _ => rfl⟩

end Curies
